import Mathlib

/-!
Verification of the SBD (sentence-boundary-detection) turn-and-merge engine
of `src/utils/sbd_processor.py`.

The Python module is embedded shallowly: strings are Lean `String`s,
Python `datetime` values are rata-die second counts (`Int`, seconds since
0001-01-01T00:00:00, the value of `datetime.min`), `None`-able values are
`Option`s, and code that can raise returns `Except String`.  Record dicts
`{'date', 'user', 'message', ...}` are modelled by the structure `Rec`.

Modelling notes, applied consistently below:
* `datetime.fromisoformat` is modelled for naive timestamps of the shape
  `YYYY-MM-DD[<sep>HH[:MM[:SS]]]` (the shape produced by the repository's
  upstream stages, `'%Y-%m-%d %H:%M:%S'`).  Fractional seconds and UTC
  offsets are treated as unparseable; the unparseable case is exactly the
  sentinel path of `group_turns`.
* the regex character class `[\p{P}\p{S}\s]` is modelled by an explicit
  set of punctuation/symbol/whitespace code points covering the
  characters that occur in the chat corpus (ASCII punctuation and
  symbols, general/CJK/fullwidth punctuation, arrows, emoji, spaces).
-/

namespace SBD

/-! ### Python string primitives -/

/-- Whitespace as recognised by Python `str.strip`/`str.split` and the
regex class `\s`. -/
def pySpace (c : Char) : Bool :=
  c.toNat = 32 || c.toNat = 9 || c.toNat = 10 || c.toNat = 11 ||
  c.toNat = 12 || c.toNat = 13 || (28 ≤ c.toNat && c.toNat ≤ 31) ||
  c.toNat = 133 || c.toNat = 160 || c.toNat = 0x1680 ||
  (0x2000 ≤ c.toNat && c.toNat ≤ 0x200a) || c.toNat = 0x2028 ||
  c.toNat = 0x2029 || c.toNat = 0x202f || c.toNat = 0x205f || c.toNat = 0x3000

/-- Python `str.strip()` on the character list. -/
def pyStripList (cs : List Char) : List Char :=
  ((cs.dropWhile pySpace).reverse.dropWhile pySpace).reverse

/-- Python `str.strip()`. -/
def pyStrip (s : String) : String := ⟨pyStripList s.data⟩

/-- Helper for `pySplit`: accumulate the current word (reversed). -/
def pySplitGo : List Char → List Char → List String
  | [], acc => if acc.isEmpty then [] else [⟨acc.reverse⟩]
  | c :: cs, acc =>
    if pySpace c then
      if acc.isEmpty then pySplitGo cs [] else ⟨acc.reverse⟩ :: pySplitGo cs []
    else pySplitGo cs (c :: acc)

/-- Python `str.split()` (no argument): split on whitespace runs, no
empty fields. -/
def pySplit (s : String) : List String := pySplitGo s.data []

/-- Python `str.endswith(suffix)`. -/
def strEndsWith (s suf : String) : Bool := suf.data.isSuffixOf s.data

/-- Python `str.startswith(prefix)`. -/
def strStartsWith (s pre : String) : Bool := pre.data.isPrefixOf s.data

/-- Python `str.endswith(tuple)`. -/
def endsAny (s : String) (sufs : List String) : Bool := sufs.any (strEndsWith s)

/-- Python `str.startswith(tuple)`. -/
def startsAny (s : String) (pres : List String) : Bool := pres.any (strStartsWith s)

/-- The ASCII apostrophe `'` (both members of the quote tuple on the
separator line of `merge_within_turn` are this same character). -/
def apos : Char := Char.ofNat 39

/-! ### Signal detectors (the regex constants of the module) -/

/-- The punctuation/symbol/whitespace class `[\p{P}\p{S}\s]` used by
`is_backchannel`, restricted to the code points relevant to the corpus. -/
def isPunctSymSpaceChar (c : Char) : Bool :=
  pySpace c ||
  (33 ≤ c.toNat && c.toNat ≤ 47) || (58 ≤ c.toNat && c.toNat ≤ 64) ||
  (91 ≤ c.toNat && c.toNat ≤ 96) || (123 ≤ c.toNat && c.toNat ≤ 126) ||
  (0xA1 ≤ c.toNat && c.toNat ≤ 0xBF) || c.toNat = 0xD7 || c.toNat = 0xF7 ||
  (0x2010 ≤ c.toNat && c.toNat ≤ 0x2027) ||
  (0x2030 ≤ c.toNat && c.toNat ≤ 0x205E) ||
  (0x2190 ≤ c.toNat && c.toNat ≤ 0x2BFF) ||
  (0x3001 ≤ c.toNat && c.toNat ≤ 0x303F) ||
  (0xFE30 ≤ c.toNat && c.toNat ≤ 0xFE4F) ||
  (0xFF01 ≤ c.toNat && c.toNat ≤ 0xFF0F) ||
  (0xFF1A ≤ c.toNat && c.toNat ≤ 0xFF20) ||
  (0xFF3B ≤ c.toNat && c.toNat ≤ 0xFF40) ||
  (0xFF5B ≤ c.toNat && c.toNat ≤ 0xFF65) ||
  (0x1F000 ≤ c.toNat && c.toNat ≤ 0x1FAFF)

/-- `re.sub(r"[\p{P}\p{S}\s]+", "", t)`. -/
def removePunctSymSpace (s : String) : String :=
  ⟨s.data.filter (fun c => !isPunctSymSpaceChar c)⟩

/-- The fixed single-token alternatives of `BACKCHANNEL_RE`. -/
def backchannelWords : List String :=
  ["웅", "응", "엉", "어", "아", "오", "헉", "헐", "앗", "와", "ㅇㅇ", "ㅇㅋ"]

/-- One-or-more repetitions of a single character (`c+` in the regex). -/
def charRun (s : String) (c : Char) : Bool :=
  !s.data.isEmpty && s.data.all (· = c)

/-- `BACKCHANNEL_RE.fullmatch`: the residual string is exactly one of the
whitelist tokens (`웅|응|엉|어|아|오|헉|헐|앗|와|ㅋ+|ㅎ+|ㅠ+|ㅜ+|ㅇㅇ|ㅇㅋ|넵+|네+`). -/
def backchannelFull (s : String) : Bool :=
  backchannelWords.contains s ||
  charRun s 'ㅋ' || charRun s 'ㅎ' || charRun s 'ㅠ' || charRun s 'ㅜ' ||
  charRun s '넵' || charRun s '네'

/-- `is_backchannel` from `sbd_processor.py` (lines 21-30). -/
def is_backchannel (text : String) : Bool :=
  if text = "" then false
  else
    let t := pyStrip text
    if t.length > 6 then false
    else backchannelFull (removePunctSymSpace t)

/-- `END_PUNCT_RE.search`: `[.?!]+$`, i.e. the last character is a strong
terminal punctuation mark. -/
def endPunct (s : String) : Bool :=
  match s.data.getLast? with
  | some c => c = '.' || c = '?' || c = '!'
  | none => false

/-- `LAUGHTER_END.search`: `(ㅋ|ㅎ)+$`. -/
def laughterEnd (s : String) : Bool :=
  match s.data.getLast? with
  | some c => c = 'ㅋ' || c = 'ㅎ'
  | none => false

/-- `ELLIPSIS_RE.search`: `(…|\.{3,}|~{2,})$`. -/
def ellipsisEnd (s : String) : Bool :=
  strEndsWith s "…" || strEndsWith s "..." || strEndsWith s "~~"

/-- The alternatives of `END_EOMI_RE` (terminal endings). -/
def endEomiList : List String :=
  ["다", "요", "죠", "네", "네요", "습니다", "습니까", "했어", "했네", "겠네",
   "랬어", "랐어", "군요", "구나", "구요", "같아", "같네요"]

/-- `END_EOMI_RE.search`: one of the terminal endings at the end. -/
def endEomi (s : String) : Bool := endsAny s endEomiList

/-- The alternatives of `CONT_EOMI_RE` (continuative endings). -/
def contEomiList : List String :=
  ["는데", "고", "서", "면서", "다가", "더니", "자", "며", "지만", "라고",
   "니까", "다니", "든지", "거나", "려니"]

/-- `CONT_EOMI_RE.search`. -/
def contEomi (s : String) : Bool := endsAny s contEomiList

/-- The alternatives of `PARTICLE_END_RE` (bare particles). -/
def particleList : List String :=
  ["은", "는", "이", "가", "을", "를", "에", "에서", "으로", "로", "와", "과",
   "랑", "하고", "보다", "처럼", "까지", "부터", "밖에", "에게", "께", "께서", "의"]

/-- `PARTICLE_END_RE.search`. -/
def particleEnd (s : String) : Bool := endsAny s particleList

/-- The alternatives of `NEXT_CONNECTIVE_RE` (sentence-initial connective
adverbs). -/
def connectiveList : List String :=
  ["그리고", "근데", "그래서", "그런데", "그때", "그다음", "또", "게다가",
   "하지만", "그러다가", "그러면", "그러니까"]

/-- A regex word character (`\w`) over the modelled alphabet: ASCII
alphanumerics, underscore, and Hangul (jamo, compatibility jamo,
syllables). -/
def isWordChar (c : Char) : Bool :=
  c.isAlphanum || c = '_' ||
  (0x1100 ≤ c.toNat && c.toNat ≤ 0x11FF) ||
  (0x3131 ≤ c.toNat && c.toNat ≤ 0x318E) ||
  (0xAC00 ≤ c.toNat && c.toNat ≤ 0xD7A3)

/-- `NEXT_CONNECTIVE_RE.search`: `^(그리고|근데|...)\b` — the text starts
with one of the connective adverbs followed by a word boundary. -/
def startsConnective (s : String) : Bool :=
  connectiveList.any fun p =>
    p.data.isPrefixOf s.data &&
    (match (s.data.drop p.data.length).head? with
     | some c => !isWordChar c
     | none => true)

/-! ### Configuration -/

/-- `SBDConfig` (lines 65-84), with the source's defaults. -/
structure SBDConfig where
  t_merge_seconds : Int := 60
  t_gap_seconds : Int := 25
  w_end_punct : Int := 2
  w_end_eomi : Int := 2
  w_laughter_end : Int := 1
  w_ellipsis_end : Int := 1
  w_long_gap : Int := 1
  w_speaker_change : Int := 1
  w_cont_eomi : Int := -2
  w_particle_end : Int := -2
  w_next_connective : Int := -1
  w_next_backchannel : Int := -1
  theta : Int := 2
deriving DecidableEq, Repr

/-- The default configuration (`SBDConfig()`). -/
def defaultConfig : SBDConfig := {}

/-! ### Timestamp parsing (`datetime.fromisoformat`)

A parsed naive datetime is its rata-die second count: seconds since
0001-01-01T00:00:00, which is `datetime.min`. -/

/-- Numeric value of a decimal digit. -/
def digitVal (c : Char) : Option Nat :=
  if c.isDigit then some (c.toNat - 48) else none

/-- Read exactly `n` decimal digits, most significant first. -/
def readDigits : Nat → Nat → List Char → Option (Nat × List Char)
  | 0, acc, cs => some (acc, cs)
  | n + 1, acc, cs =>
    match cs with
    | [] => none
    | c :: cs' =>
      match digitVal c with
      | some d => readDigits n (acc * 10 + d) cs'
      | none => none

/-- Consume one expected character. -/
def expectChar (c : Char) : List Char → Option (List Char)
  | [] => none
  | d :: cs => if d = c then some cs else none

/-- Gregorian leap-year rule. -/
def isLeapYear (y : Nat) : Bool := (y % 4 = 0 && y % 100 ≠ 0) || y % 400 = 0

/-- Length of month `m` of year `y`. -/
def monthLength (y m : Nat) : Nat :=
  if m = 2 then (if isLeapYear y then 29 else 28)
  else if m = 4 || m = 6 || m = 9 || m = 11 then 30
  else 31

/-- Days in year `y` before month `m`. -/
def daysBeforeMonth (y m : Nat) : Nat :=
  (List.range (m - 1)).foldl (fun acc i => acc + monthLength y (i + 1)) 0

/-- Days before January 1 of year `y` (rata die). -/
def daysBeforeYear (y : Nat) : Nat :=
  (y - 1) * 365 + (y - 1) / 4 - (y - 1) / 100 + (y - 1) / 400

/-- Rata-die day number of a calendar date (0001-01-01 is day 0). -/
def rataDie (y m d : Nat) : Nat := daysBeforeYear y + daysBeforeMonth y m + (d - 1)

/-- Time-of-day part `HH[:MM[:SS]]`, in seconds. -/
def parseTime (cs : List Char) : Option Nat := do
  let (hh, cs) ← readDigits 2 0 cs
  if hh > 23 then none else
  match cs with
  | [] => some (hh * 3600)
  | _ => do
    let cs ← expectChar ':' cs
    let (mm, cs) ← readDigits 2 0 cs
    if mm > 59 then none else
    match cs with
    | [] => some (hh * 3600 + mm * 60)
    | _ => do
      let cs ← expectChar ':' cs
      let (ss, cs) ← readDigits 2 0 cs
      if ss > 59 then none else
      match cs with
      | [] => some (hh * 3600 + mm * 60 + ss)
      | _ => none

/-- `datetime.fromisoformat` on `YYYY-MM-DD[<sep>HH[:MM[:SS]]]` (any
single separator character, as in Python), as a rata-die second count.
Malformed input (including fractional seconds or a UTC offset, see the
module comment) is `none`. -/
def parseISONat (s : String) : Option Nat := do
  let cs := s.data
  let (y, cs) ← readDigits 4 0 cs
  let cs ← expectChar '-' cs
  let (mo, cs) ← readDigits 2 0 cs
  let cs ← expectChar '-' cs
  let (d, cs) ← readDigits 2 0 cs
  if y < 1 then none else
  if mo < 1 || mo > 12 then none else
  if d < 1 || d > monthLength y mo then none else
  match cs with
  | [] => some (rataDie y mo d * 86400)
  | _sep :: rest => do
    let t ← parseTime rest
    some (rataDie y mo d * 86400 + t)

/-- The parsed timestamp as an `Int` (so that it can carry the
`datetime.min` sentinel during sorting). -/
def parseISO (s : String) : Option Int := (parseISONat s).map Int.ofNat

/-- `date.replace('Z', '+00:00')` applied before parsing, on the
character list. -/
def replaceZList : List Char → List Char
  | [] => []
  | c :: cs =>
    if c = 'Z' then '+' :: '0' :: '0' :: ':' :: '0' :: '0' :: replaceZList cs
    else c :: replaceZList cs

/-- `date.replace('Z', '+00:00')`. -/
def replaceZ (s : String) : String := ⟨replaceZList s.data⟩

/-- `datetime.min` (0001-01-01T00:00:00) as a rata-die second count. -/
def datetimeMin : Int := 0

/-! ### Records and the turn grouper -/

/-- A pipeline record: the three input fields plus the annotations the
pipeline may add (`none`/`0` standing for an absent key). -/
structure Rec where
  date : String := ""
  user : String := ""
  message : String := ""
  is_backchannel : Option Bool := none
  datetime : Option Int := none
  turn_id : Nat := 0
deriving DecidableEq, Repr, Inhabited

/-- The sort key `x.get('datetime') or datetime.min`. -/
def sortKey (r : Rec) : Int := r.datetime.getD datetimeMin

/-- Stable insertion into a key-sorted list: the new element goes after
every element whose key is not strictly greater. -/
def insertByKey {α : Type} (key : α → Int) (x : α) : List α → List α
  | [] => [x]
  | y :: ys => if key x < key y then x :: y :: ys else y :: insertByKey key x ys

/-- Stable ascending sort by an integer key; extensionally equal to
Python's stable `sorted(..., key=...)`. -/
def sortByKey {α : Type} (key : α → Int) (l : List α) : List α :=
  l.foldl (fun acc x => insertByKey key x acc) []

/-- `gap_ok`: both timestamps present and the gap within the window
(lines 115-118: `if ts and prev_ts: ... else gap_ok = False`). -/
def gapOk (cfg : SBDConfig) (ts prevTs : Option Int) : Bool :=
  match ts, prevTs with
  | some t, some p => decide (t - p ≤ cfg.t_merge_seconds)
  | _, _ => false

/-- The turn-assignment walk of `group_turns` (lines 103-124), with the
state `(prev_speaker, prev_ts, cur_turn)` made explicit.  Python's
initial `cur_turn = -1` is irrelevant: the first message always takes
the `prev_speaker is None` branch, which assigns 0. -/
def turnLoop (cfg : SBDConfig) : Option String → Option Int → Nat → List Rec → List Rec
  | _, _, _, [] => []
  | prevSpk, prevTs, cur, r :: rs =>
    let cur' : Nat :=
      match prevSpk with
      | none => 0
      | some ps => if r.user = ps && gapOk cfg r.datetime prevTs then cur else cur + 1
    { r with turn_id := cur' } :: turnLoop cfg (some r.user) r.datetime cur' rs

/-- `group_turns` (lines 87-126): copy each record, parse its date into
`datetime` (`None` on failure), stable-sort by
`x.get('datetime') or datetime.min`, and assign `turn_id`s. -/
def group_turns (data : List Rec) (cfg : SBDConfig) : List Rec :=
  turnLoop cfg none none 0
    (sortByKey sortKey (data.map fun r => { r with datetime := parseISO (replaceZ r.date) }))

/-! ### Boundary scorer and intra-turn merger -/

/-- `boundary_score` (lines 129-162). -/
def boundary_score (prev_text next_text : String) (delta_t : Option Int)
    (speaker_changed : Bool) (cfg : SBDConfig) : Int :=
  let pt := pyStrip prev_text
  let nt := pyStrip next_text
  (if endPunct pt then cfg.w_end_punct else 0)
  + (if endEomi pt then cfg.w_end_eomi else 0)
  + (if laughterEnd pt then cfg.w_laughter_end else 0)
  + (if ellipsisEnd pt then cfg.w_ellipsis_end else 0)
  + (if (match delta_t with
         | some d => decide (cfg.t_gap_seconds < d)
         | none => false) then cfg.w_long_gap else 0)
  + (if speaker_changed then cfg.w_speaker_change else 0)
  + (if contEomi pt then cfg.w_cont_eomi else 0)
  + (if particleEnd pt then cfg.w_particle_end else 0)
  + (if startsConnective nt then cfg.w_next_connective else 0)
  + (if is_backchannel nt then cfg.w_next_backchannel else 0)

/-- The separator computation of the merge branch (lines 193-197).  The
two `if`s are independent: a punctuation-initial `next_text` overrides
the single-space case. -/
def merge_sep (buf next_text : String) : String :=
  let sep := ", "
  let sep := if endsAny buf [".", "?", "!", "…"] || endsAny buf [apos.toString, apos.toString]
             then " " else sep
  if startsAny next_text [",", ".", "?", "!", "…"] then "" else sep

/-- The message of the `IndexError` raised by `buf.split()[-1]` on an
empty split. -/
def indexErrorMsg : String := "IndexError: list index out of range"

/-- The loop body of `merge_within_turn` (lines 177-203).  Each
iteration first evaluates `buf.split()[-1]`, which raises `IndexError`
when `buf` is empty or whitespace-only; otherwise
`buf.split()[-1] and buf or ""` evaluates to `buf` itself (the last
split field is a nonempty, hence truthy, string, and `buf` is then
nonempty). -/
def mergeGo (cfg : SBDConfig) : List (Option Int × String) → String → Option Int →
    List String → Except String (List String)
  | [], buf, _, out => .ok (if buf = "" then out else out ++ [pyStrip buf])
  | (curTs, curText) :: rest, buf, prevTs, out =>
    if pySplit buf = [] then .error indexErrorMsg
    else
      let prev_text := buf
      let next_text := pyStrip curText
      let delta_t : Option Int :=
        match curTs, prevTs with
        | some c, some p => some (c - p)
        | _, _ => none
      let s := boundary_score prev_text next_text delta_t false cfg
      if cfg.theta ≤ s then
        mergeGo cfg rest next_text curTs (out ++ if buf = "" then [] else [pyStrip buf])
      else
        mergeGo cfg rest (buf ++ merge_sep buf next_text ++ next_text) curTs out

/-- `merge_within_turn` (lines 165-205). -/
def merge_within_turn (messages : List (Option Int × String)) (cfg : SBDConfig) :
    Except String (List String) :=
  match messages with
  | [] => .ok []
  | m0 :: rest =>
    let buf0 := if m0.2 = "" then "" else pyStrip m0.2
    mergeGo cfg rest buf0 m0.1 []

/-! ### Pipeline -/

/-- The backchannel-tagging copy loop of `sbd_merge_messages`
(lines 217-222). -/
def tagBackchannel (data : List Rec) : List Rec :=
  data.map fun r => { r with is_backchannel := some (is_backchannel r.message) }

/-- `max(item.get('turn_id', 0) for item in data_copy)`: `none` models
the `ValueError` that `max` raises on an empty sequence. -/
def maxTurnId (l : List Rec) : Option Nat :=
  match l with
  | [] => none
  | r :: rs => some (rs.foldl (fun m x => Nat.max m x.turn_id) r.turn_id)

/-- `[item for item in data_copy if item.get('turn_id') == turn_id]`. -/
def turnRecords (grouped : List Rec) (tid : Nat) : List Rec :=
  grouped.filter fun r => r.turn_id = tid

/-- One iteration of the per-turn loop (lines 229-242): merge the turn's
messages and build one fresh `{date, user, message}` row per merged
sentence from the turn's first record. -/
def mergedRowsFor (cfg : SBDConfig) (grouped : List Rec) (tid : Nat) :
    Except String (List Rec) :=
  match turnRecords grouped tid with
  | [] => .ok []
  | first :: restTurn =>
    match merge_within_turn ((first :: restTurn).map fun r => (r.datetime, r.message)) cfg with
    | .error e => .error e
    | .ok texts =>
      .ok (texts.map fun t => { date := first.date, user := first.user, message := t })

/-- Appending one turn's rows to the accumulator (`merged_rows`). -/
def appendRows (cfg : SBDConfig) (grouped : List Rec) (acc : List Rec) (tid : Nat) :
    Except String (List Rec) :=
  match mergedRowsFor cfg grouped tid with
  | .error e => .error e
  | .ok rows => .ok (acc ++ rows)

/-- `sbd_merge_messages` (lines 208-244): tag backchannels on copies,
group turns, then merge turn by turn for `turn_id` from 0 to the
maximum.  An exception anywhere surfaces as `.error`. -/
def sbd_merge_messages (data : List Rec) (cfg : SBDConfig) : Except String (List Rec) :=
  let grouped := group_turns (tagBackchannel data) cfg
  match maxTurnId grouped with
  | none => .error "ValueError: max() arg is an empty sequence"
  | some mx => (List.range (mx + 1)).foldlM (appendRows cfg grouped) []

/-- `process_sbd_merge` (lines 247-273): run the pipeline, and on any
exception fall back to the original input. -/
def process_sbd_merge (data : List Rec) (cfg : SBDConfig) : List Rec :=
  match sbd_merge_messages data cfg with
  | .ok merged => merged
  | .error _ => data

/-- The turn with id `tid` as the pipeline computes it for `data`
(records of the grouped copy whose `turn_id` is `tid`). -/
def turnMessagesOf (data : List Rec) (cfg : SBDConfig) (tid : Nat) : List Rec :=
  turnRecords (group_turns (tagBackchannel data) cfg) tid

/-! ### Relations used to state the turn partition invariant -/

/-- The exact successor relation between consecutive outputs of the turn
walk: the next record's `turn_id` repeats the previous one's exactly
when the speaker matches and the gap check passes. -/
def turnStepRel (cfg : SBDConfig) (a b : Rec) : Prop :=
  b.turn_id =
    if b.user = a.user && gapOk cfg b.datetime a.datetime then a.turn_id else a.turn_id + 1

/-- Two records in the same turn have the same user. -/
def sameTurnSameUser (a b : Rec) : Prop := a.turn_id = b.turn_id → a.user = b.user

/-- The adjacent-pair part of the turn partition invariant: `turn_id` is
non-decreasing; a same-turn adjacent pair shares the user and has both
timestamps present with a gap within the window; at a boundary the
speaker differs or any defined gap exceeds the window. -/
def turnAdjacentOK (cfg : SBDConfig) (a b : Rec) : Prop :=
  a.turn_id ≤ b.turn_id ∧
  (a.turn_id = b.turn_id →
    a.user = b.user ∧
    ∃ ta tb, a.datetime = some ta ∧ b.datetime = some tb ∧ tb - ta ≤ cfg.t_merge_seconds) ∧
  (a.turn_id ≠ b.turn_id →
    a.user ≠ b.user ∨
    ∀ ta tb, a.datetime = some ta → b.datetime = some tb → cfg.t_merge_seconds < tb - ta)

/-- The three input fields of a record. -/
def stripFields (r : Rec) : String × String × String := (r.date, r.user, r.message)

/-- An adjacent pair one of whose timestamps is missing is always a turn
boundary. -/
def noneBoundary (a b : Rec) : Prop :=
  a.datetime = none ∨ b.datetime = none → a.turn_id ≠ b.turn_id

/-! ### Heap model of the record dicts (for the frame property, claim C10)

The pure embedding above works on record values; Python, however,
mutates dict objects in place, and the source's non-mutation guarantee
(`item.copy()` before every write) is a statement about object
identity.  Here the same functions are re-traced at the reference level:
a `Heap` is the store of allocated dicts, the input is a list of
addresses, `item.copy()` is an allocation, and `item[k] = v` is a write
through an address. -/

/-- A Python dict value occurring in the pipeline's records. -/
inductive PyVal where
  | vStr : String → PyVal
  | vDT : Option Int → PyVal
  | vBool : Bool → PyVal
  | vNat : Nat → PyVal
deriving DecidableEq, Repr

/-- A record dict: association list in insertion order. -/
abbrev Dict := List (String × PyVal)

/-- Dict lookup (`item.get(k)`). -/
def dictGet (d : Dict) (k : String) : Option PyVal :=
  match d.find? (fun p => p.1 = k) with
  | some p => some p.2
  | none => none

/-- Dict assignment `item[k] = v`, preserving insertion order. -/
def dictSet (d : Dict) (k : String) (v : PyVal) : Dict :=
  if d.any (fun p => p.1 = k) then d.map (fun p => if p.1 = k then (k, v) else p)
  else d ++ [(k, v)]

/-- The object store: dict number `a` lives at index `a`. -/
abbrev Heap := List Dict

/-- Dereference an address (out-of-range reads give the empty dict;
the model never creates such addresses itself). -/
def heapRead (h : Heap) (a : Nat) : Dict := h.getD a []

/-- Overwrite the dict at an address. -/
def heapWrite (h : Heap) (a : Nat) (d : Dict) : Heap := h.set a d

/-- One step of a copy loop: read the dict at `a`, transform the copy
with `g`, and allocate it at a fresh address. -/
def allocStep (g : Dict → Dict) (st : Heap × List Nat) (a : Nat) : Heap × List Nat :=
  (st.1 ++ [g (heapRead st.1 a)], st.2 ++ [st.1.length])

/-- A copy loop over the input addresses (`data_copy = []; for item in
data: ... data_copy.append(item_copy)`). -/
def copyFold (g : Dict → Dict) (h : Heap) (addrs : List Nat) : Heap × List Nat :=
  addrs.foldl (allocStep g) (h, [])

/-- The copy transformation of `group_turns`: parse `date` into the
`datetime` key of the copy. -/
def copyWithDatetime (item : Dict) : Dict :=
  match dictGet item "date" with
  | some (.vStr s) => dictSet item "datetime" (.vDT (parseISO (replaceZ s)))
  | _ => item

/-- The copy transformation of `sbd_merge_messages`: tag the copy with
`is_backchannel`. -/
def copyWithTag (item : Dict) : Dict :=
  match dictGet item "message" with
  | some (.vStr m) => dictSet item "is_backchannel" (.vBool (is_backchannel m))
  | _ => item

/-- `x.get('datetime') or datetime.min` as a sort key read through the
heap. -/
def heapKey (h : Heap) (a : Nat) : Int :=
  match dictGet (heapRead h a) "datetime" with
  | some (.vDT (some t)) => t
  | _ => datetimeMin

/-- `item.get('turn_id', 0)` read through the heap. -/
def heapTurnId (h : Heap) (a : Nat) : Nat :=
  match dictGet (heapRead h a) "turn_id" with
  | some (.vNat n) => n
  | _ => 0

/-- A string field read through the heap (`item.get(k, '')`). -/
def heapStrField (h : Heap) (a : Nat) (k : String) : String :=
  match dictGet (heapRead h a) k with
  | some (.vStr s) => s
  | _ => ""

/-- `item.get('datetime')` read through the heap. -/
def heapDTField (h : Heap) (a : Nat) : Option Int :=
  match dictGet (heapRead h a) "datetime" with
  | some (.vDT o) => o
  | _ => none

/-- The turn-assignment walk of `group_turns` at the reference level:
it writes `turn_id` into the dict behind each visited address. -/
def gtWalk (cfg : SBDConfig) : Heap → List Nat → Option String → Option Int → Nat → Heap
  | h, [], _, _, _ => h
  | h, a :: rest, prevSpk, prevTs, cur =>
    let item := heapRead h a
    let spk := match dictGet item "user" with
      | some (.vStr s) => s
      | _ => ""
    let ts : Option Int := match dictGet item "datetime" with
      | some (.vDT o) => o
      | _ => none
    let cur' : Nat :=
      match prevSpk with
      | none => 0
      | some ps => if spk = ps && gapOk cfg ts prevTs then cur else cur + 1
    gtWalk cfg (heapWrite h a (dictSet item "turn_id" (.vNat cur'))) rest (some spk) ts cur'

/-- `group_turns` at the reference level: copy-and-parse, stable-sort
the copies' addresses by key, then assign `turn_id`s in the copies. -/
def group_turnsH (cfg : SBDConfig) (h : Heap) (addrs : List Nat) : Heap × List Nat :=
  (gtWalk cfg (copyFold copyWithDatetime h addrs).1
      (sortByKey (heapKey (copyFold copyWithDatetime h addrs).1)
        (copyFold copyWithDatetime h addrs).2) none none 0,
   sortByKey (heapKey (copyFold copyWithDatetime h addrs).1)
     (copyFold copyWithDatetime h addrs).2)

/-- `max(item.get('turn_id', 0) ...)` over addresses (`none` models the
`ValueError` on the empty sequence). -/
def maxTurnIdH (h : Heap) (addrs : List Nat) : Option Nat :=
  match addrs with
  | [] => none
  | a :: rest => some (rest.foldl (fun m x => Nat.max m (heapTurnId h x)) (heapTurnId h a))

/-- One turn's merged rows at the reference level: reads only; the
output rows are fresh three-key dicts. -/
def rowsForH (cfg : SBDConfig) (h : Heap) (grouped : List Nat) (tid : Nat) :
    Except String (List Dict) :=
  match grouped.filter (fun a => heapTurnId h a = tid) with
  | [] => .ok []
  | a0 :: restT =>
    match merge_within_turn
        ((a0 :: restT).map fun a => (heapDTField h a, heapStrField h a "message")) cfg with
    | .error e => .error e
    | .ok texts =>
      .ok (texts.map fun t =>
        [("date", PyVal.vStr (heapStrField h a0 "date")),
         ("user", PyVal.vStr (heapStrField h a0 "user")),
         ("message", PyVal.vStr t)])

/-- One allocation step for the fresh output rows. -/
def rowAllocStep (st : Heap × List Nat) (d : Dict) : Heap × List Nat :=
  (st.1 ++ [d], st.2 ++ [st.1.length])

/-- Allocate the merged rows (`base_item = {...}` then append). -/
def allocRows (h : Heap) (ds : List Dict) : Heap × List Nat :=
  ds.foldl rowAllocStep (h, [])

/-- `sbd_merge_messages` at the reference level. -/
def sbdH (cfg : SBDConfig) (h : Heap) (addrs : List Nat) : Heap × Except String (List Nat) :=
  match maxTurnIdH
      (group_turnsH cfg (copyFold copyWithTag h addrs).1 (copyFold copyWithTag h addrs).2).1
      (group_turnsH cfg (copyFold copyWithTag h addrs).1 (copyFold copyWithTag h addrs).2).2 with
  | none =>
    ((group_turnsH cfg (copyFold copyWithTag h addrs).1 (copyFold copyWithTag h addrs).2).1,
     .error "ValueError: max() arg is an empty sequence")
  | some mx =>
    match (List.range (mx + 1)).foldlM
        (fun acc tid => Except.map (acc ++ ·)
          (rowsForH cfg
            (group_turnsH cfg (copyFold copyWithTag h addrs).1
              (copyFold copyWithTag h addrs).2).1
            (group_turnsH cfg (copyFold copyWithTag h addrs).1
              (copyFold copyWithTag h addrs).2).2 tid))
        ([] : List Dict) with
    | .error e =>
      ((group_turnsH cfg (copyFold copyWithTag h addrs).1 (copyFold copyWithTag h addrs).2).1,
       .error e)
    | .ok rows =>
      ((allocRows (group_turnsH cfg (copyFold copyWithTag h addrs).1
          (copyFold copyWithTag h addrs).2).1 rows).1,
       .ok (allocRows (group_turnsH cfg (copyFold copyWithTag h addrs).1
          (copyFold copyWithTag h addrs).2).1 rows).2)

/-- `process_sbd_merge` at the reference level: the final heap, and on
error the original address list instead of the merged rows. -/
def process_sbd_mergeH (cfg : SBDConfig) (h : Heap) (addrs : List Nat) : Heap × List Nat :=
  ((sbdH cfg h addrs).1,
   match (sbdH cfg h addrs).2 with
   | .ok rows => rows
   | .error _ => addrs)

/-! ### Helper lemmas for the pure pipeline -/

/-- With an empty buffer, the first boundary evaluation of the merge
loop raises (`buf.split()[-1]` on an empty split). -/
theorem mergeGo_empty_buf (cfg : SBDConfig) (p : Option Int × String)
    (rest : List (Option Int × String)) (prevTs : Option Int) (out : List String) :
    mergeGo cfg (p :: rest) "" prevTs out = .error indexErrorMsg := by
  obtain ⟨a, b⟩ := p
  rfl

/-- A two-or-more-message turn whose first text strips to the empty
string makes `merge_within_turn` raise. -/
theorem merge_within_turn_empty_first (cfg : SBDConfig) (m0 m1 : Option Int × String)
    (rest : List (Option Int × String)) (h : pyStrip m0.2 = "") :
    merge_within_turn (m0 :: m1 :: rest) cfg = .error indexErrorMsg := by
  have hb : (if m0.2 = "" then "" else pyStrip m0.2) = "" := by
    by_cases h0 : m0.2 = ""
    · rw [if_pos h0]
    · rw [if_neg h0]; exact h
  show mergeGo cfg (m1 :: rest) (if m0.2 = "" then "" else pyStrip m0.2) m0.1 [] = _
  rw [hb]
  exact mergeGo_empty_buf cfg m1 rest m0.1 []

/-- The running maximum of `max(...)` dominates its initial value. -/
theorem foldlMax_init_le (rs : List Rec) (a : Nat) :
    a ≤ rs.foldl (fun m x => Nat.max m x.turn_id) a := by
  induction rs generalizing a with
  | nil => exact Nat.le_refl a
  | cons r rs ih =>
    exact Nat.le_trans (Nat.le_max_left a r.turn_id) (ih (Nat.max a r.turn_id))

/-- The running maximum of `max(...)` dominates every member. -/
theorem foldlMax_mem_le (rs : List Rec) (a : Nat) (r : Rec) (hr : r ∈ rs) :
    r.turn_id ≤ rs.foldl (fun m x => Nat.max m x.turn_id) a := by
  induction rs generalizing a with
  | nil => cases hr
  | cons s rs ih =>
    rcases List.mem_cons.mp hr with h | h
    · subst h
      exact Nat.le_trans (Nat.le_max_right a r.turn_id)
        (foldlMax_init_le rs (Nat.max a r.turn_id))
    · exact ih (Nat.max a s.turn_id) h

/-- Every record's `turn_id` is bounded by `maxTurnId`. -/
theorem maxTurnId_le (l : List Rec) (mx : Nat) (hmx : maxTurnId l = some mx)
    (r : Rec) (hr : r ∈ l) : r.turn_id ≤ mx := by
  cases l with
  | nil => cases hr
  | cons s rs =>
    have hmx' : rs.foldl (fun m x => Nat.max m x.turn_id) s.turn_id = mx :=
      Option.some.inj hmx
    rcases List.mem_cons.mp hr with h | h
    · subst h; rw [← hmx']; exact foldlMax_init_le rs r.turn_id
    · rw [← hmx']; exact foldlMax_mem_le rs s.turn_id r h

/-- If any turn id in the iteration list produces an error, the
row-collecting fold produces an error. -/
theorem foldlM_appendRows_error (cfg : SBDConfig) (grouped : List Rec)
    (tids : List Nat) (acc : List Rec)
    (h : ∃ t ∈ tids, ∃ e, mergedRowsFor cfg grouped t = .error e) :
    ∃ e, tids.foldlM (appendRows cfg grouped) acc = Except.error e := by
  induction tids generalizing acc with
  | nil => obtain ⟨t, ht, _⟩ := h; cases ht
  | cons t0 ts ih =>
    rw [List.foldlM_cons]
    cases h0 : mergedRowsFor cfg grouped t0 with
    | error e =>
      refine ⟨e, ?_⟩
      have : appendRows cfg grouped acc t0 = .error e := by
        unfold appendRows; rw [h0]
      rw [this]
      rfl
    | ok rows =>
      have : appendRows cfg grouped acc t0 = .ok (acc ++ rows) := by
        unfold appendRows; rw [h0]
      rw [this]
      obtain ⟨t, ht, e, he⟩ := h
      rcases List.mem_cons.mp ht with h | h
      · subst h; rw [h0] at he; cases he
      · exact ih (acc ++ rows) ⟨t, h, e, he⟩

/-- `insertByKey` permutes its input plus the new element. -/
theorem insertByKey_perm {α : Type} (key : α → Int) (x : α) (l : List α) :
    (insertByKey key x l).Perm (x :: l) := by
  induction l with
  | nil => exact List.Perm.refl _
  | cons y ys ih =>
    unfold insertByKey
    by_cases h : key x < key y
    · rw [if_pos h]
    · rw [if_neg h]
      exact (ih.cons y).trans (List.Perm.swap x y ys)

/-- `insertByKey` preserves key-sortedness. -/
theorem insertByKey_pairwise {α : Type} (key : α → Int) (x : α) (l : List α)
    (h : l.Pairwise (fun a b => key a ≤ key b)) :
    (insertByKey key x l).Pairwise (fun a b => key a ≤ key b) := by
  induction l with
  | nil => simp [insertByKey]
  | cons y ys ih =>
    rw [List.pairwise_cons] at h
    obtain ⟨hy, hys⟩ := h
    unfold insertByKey
    by_cases hlt : key x < key y
    · rw [if_pos hlt]
      rw [List.pairwise_cons]
      refine ⟨?_, List.pairwise_cons.mpr ⟨hy, hys⟩⟩
      intro b hb
      rcases List.mem_cons.mp hb with rfl | hb
      · exact le_of_lt hlt
      · exact le_trans (le_of_lt hlt) (hy b hb)
    · rw [if_neg hlt]
      rw [List.pairwise_cons]
      refine ⟨?_, ih hys⟩
      intro b hb
      have hb' : b ∈ x :: ys := (insertByKey_perm key x ys).mem_iff.mp hb
      rcases List.mem_cons.mp hb' with rfl | hb''
      · exact le_of_not_lt hlt
      · exact hy b hb''

/-- The sorting fold permutes the accumulator plus the remaining input. -/
theorem sortFold_perm {α : Type} (key : α → Int) :
    ∀ (l acc : List α),
      (l.foldl (fun acc x => insertByKey key x acc) acc).Perm (acc ++ l) := by
  intro l
  induction l with
  | nil => intro acc; simp
  | cons x l ih =>
    intro acc
    rw [List.foldl_cons]
    refine ((ih (insertByKey key x acc)).trans ?_)
    refine (((insertByKey_perm key x acc).append_right l).trans ?_)
    exact List.perm_middle.symm

/-- `sortByKey` is a permutation of its input. -/
theorem sortByKey_perm {α : Type} (key : α → Int) (l : List α) :
    (sortByKey key l).Perm l := by
  have h := sortFold_perm key l []
  simpa [sortByKey] using h

/-- The sorting fold keeps the accumulator key-sorted. -/
theorem sortFold_pairwise {α : Type} (key : α → Int) :
    ∀ (l acc : List α), acc.Pairwise (fun a b => key a ≤ key b) →
      (l.foldl (fun acc x => insertByKey key x acc) acc).Pairwise
        (fun a b => key a ≤ key b) := by
  intro l
  induction l with
  | nil => intro acc h; exact h
  | cons x l ih =>
    intro acc h
    rw [List.foldl_cons]
    exact ih (insertByKey key x acc) (insertByKey_pairwise key x acc h)

/-- `sortByKey` output is key-sorted. -/
theorem sortByKey_pairwise {α : Type} (key : α → Int) (l : List α) :
    (sortByKey key l).Pairwise (fun a b => key a ≤ key b) :=
  sortFold_pairwise key l [] (List.Pairwise.nil)

/-! ### Frame lemmas for the heap model -/

/-- Appending allocations does not change existing cells. -/
theorem heapRead_append (h : Heap) (d : Dict) (a : Nat) (ha : a < h.length) :
    heapRead (h ++ [d]) a = heapRead h a := by
  unfold heapRead
  exact List.getD_append h [d] [] a ha

/-- Writing one address does not change another. -/
theorem heapRead_set_ne (h : Heap) (b : Nat) (d : Dict) (a : Nat) (hne : a ≠ b) :
    heapRead (heapWrite h b d) a = heapRead h a := by
  unfold heapRead heapWrite
  rw [List.getD_eq_getElem?_getD, List.getD_eq_getElem?_getD,
    List.getElem?_set_ne (Ne.symm hne)]

/-- The copy loop only allocates: the heap grows, existing cells are
unchanged, and every emitted address is fresh (at or above the entry
heap's length and within the exit heap). -/
theorem copyFold_aux (g : Dict → Dict) :
    ∀ (addrs : List Nat) (h : Heap) (acc : List Nat),
      h.length ≤ (addrs.foldl (allocStep g) (h, acc)).1.length ∧
      (∀ a, a < h.length →
        heapRead (addrs.foldl (allocStep g) (h, acc)).1 a = heapRead h a) ∧
      (∀ c ∈ (addrs.foldl (allocStep g) (h, acc)).2,
        c ∈ acc ∨ (h.length ≤ c ∧ c < (addrs.foldl (allocStep g) (h, acc)).1.length)) := by
  intro addrs
  induction addrs with
  | nil =>
    intro h acc
    exact ⟨Nat.le_refl _, fun a _ => rfl, fun c hc => Or.inl hc⟩
  | cons b bs ih =>
    intro h acc
    rw [List.foldl_cons]
    have hstep : allocStep g (h, acc) b
        = (h ++ [g (heapRead h b)], acc ++ [h.length]) := rfl
    rw [hstep]
    obtain ⟨ihlen, ihread, ihmem⟩ := ih (h ++ [g (heapRead h b)]) (acc ++ [h.length])
    have hlen1 : (h ++ [g (heapRead h b)]).length = h.length + 1 := by
      simp
    refine ⟨?_, ?_, ?_⟩
    · omega
    · intro a ha
      rw [ihread a (by omega)]
      exact heapRead_append h _ a ha
    · intro c hc
      rcases ihmem c hc with hacc | hfresh
      · rcases List.mem_append.mp hacc with h1 | h2
        · exact Or.inl h1
        · have : c = h.length := by simpa using h2
          subst this
          exact Or.inr ⟨Nat.le_refl _, by omega⟩
      · exact Or.inr ⟨by omega, hfresh.2⟩

/-- `copyFold` packaged: the heap grows, existing cells are unchanged,
and every emitted copy address is fresh. -/
theorem copyFold_spec (g : Dict → Dict) (h : Heap) (addrs : List Nat) :
    h.length ≤ (copyFold g h addrs).1.length ∧
    (∀ a, a < h.length → heapRead (copyFold g h addrs).1 a = heapRead h a) ∧
    (∀ c ∈ (copyFold g h addrs).2,
      h.length ≤ c ∧ c < (copyFold g h addrs).1.length) := by
  obtain ⟨hl, hr, hm⟩ := copyFold_aux g addrs h []
  exact ⟨hl, hr, fun c hc => (hm c hc).resolve_left (by simp)⟩

/-- The turn walk writes only to the visited addresses. -/
theorem gtWalk_frame (cfg : SBDConfig) :
    ∀ (as' : List Nat) (h : Heap) (ps : Option String) (pts : Option Int) (cur : Nat)
      (a : Nat), a ∉ as' →
      heapRead (gtWalk cfg h as' ps pts cur) a = heapRead h a := by
  intro as'
  induction as' with
  | nil => intro h ps pts cur a _; rfl
  | cons b bs ih =>
    intro h ps pts cur a ha
    have hne : a ≠ b := fun he => ha (he ▸ List.mem_cons_self b bs)
    have hnb : a ∉ bs := fun hm => ha (List.mem_cons_of_mem b hm)
    simp only [gtWalk]
    rw [ih _ _ _ _ a hnb]
    exact heapRead_set_ne h b _ a hne

/-- The turn walk does not change the heap's length. -/
theorem gtWalk_length (cfg : SBDConfig) :
    ∀ (as' : List Nat) (h : Heap) (ps : Option String) (pts : Option Int) (cur : Nat),
      (gtWalk cfg h as' ps pts cur).length = h.length := by
  intro as'
  induction as' with
  | nil => intro h _ _ _; rfl
  | cons b bs ih =>
    intro h ps pts cur
    simp only [gtWalk]
    rw [ih]
    simp [heapWrite]

/-- Allocating rows does not change existing cells. -/
theorem allocRows_aux :
    ∀ (ds : List Dict) (h : Heap) (acc : List Nat) (a : Nat), a < h.length →
      heapRead (ds.foldl rowAllocStep (h, acc)).1 a = heapRead h a := by
  intro ds
  induction ds with
  | nil => intro h acc a _; rfl
  | cons d ds ih =>
    intro h acc a ha
    rw [List.foldl_cons]
    have hstep : rowAllocStep (h, acc) d = (h ++ [d], acc ++ [h.length]) := rfl
    rw [hstep]
    rw [ih (h ++ [d]) (acc ++ [h.length]) a (by simp; omega)]
    exact heapRead_append h d a ha

/-- `group_turnsH` leaves every pre-existing cell unchanged: it writes
only to the fresh copies. -/
theorem group_turnsH_frame (cfg : SBDConfig) (h : Heap) (addrs : List Nat) (a : Nat)
    (ha : a < h.length) :
    heapRead (group_turnsH cfg h addrs).1 a = heapRead h a := by
  obtain ⟨hlen, hread, hmem⟩ := copyFold_spec copyWithDatetime h addrs
  have hnotin : a ∉ sortByKey (heapKey (copyFold copyWithDatetime h addrs).1)
      (copyFold copyWithDatetime h addrs).2 := by
    intro hmem'
    have hcp : a ∈ (copyFold copyWithDatetime h addrs).2 :=
      (sortByKey_perm _ _).mem_iff.mp hmem'
    have := (hmem a hcp).1
    omega
  show heapRead (gtWalk cfg (copyFold copyWithDatetime h addrs).1 _ none none 0) a
      = heapRead h a
  rw [gtWalk_frame cfg _ _ none none 0 a hnotin]
  exact hread a ha

/-- `group_turnsH` does not shrink the heap. -/
theorem group_turnsH_length (cfg : SBDConfig) (h : Heap) (addrs : List Nat) :
    h.length ≤ (group_turnsH cfg h addrs).1.length := by
  obtain ⟨hlen, _, _⟩ := copyFold_spec copyWithDatetime h addrs
  show h.length ≤ (gtWalk cfg (copyFold copyWithDatetime h addrs).1 _ none none 0).length
  rw [gtWalk_length]
  exact hlen

/-- `sbdH` leaves every pre-existing cell unchanged and does not shrink
the heap. -/
theorem sbdH_frame (cfg : SBDConfig) (h : Heap) (addrs : List Nat) (a : Nat)
    (ha : a < h.length) :
    heapRead (sbdH cfg h addrs).1 a = heapRead h a := by
  obtain ⟨hlen1, hread1, _⟩ := copyFold_spec copyWithTag h addrs
  have hread2 : heapRead (group_turnsH cfg (copyFold copyWithTag h addrs).1
      (copyFold copyWithTag h addrs).2).1 a = heapRead h a := by
    rw [group_turnsH_frame cfg _ _ a (by omega)]
    exact hread1 a ha
  have hlen2 : h.length ≤ (group_turnsH cfg (copyFold copyWithTag h addrs).1
      (copyFold copyWithTag h addrs).2).1.length :=
    Nat.le_trans hlen1 (group_turnsH_length cfg _ _)
  unfold sbdH
  split
  · exact hread2
  · split
    · exact hread2
    · show heapRead (allocRows _ _).1 a = heapRead h a
      unfold allocRows
      rw [allocRows_aux _ _ [] a (by omega)]
      exact hread2


/-- The turn walk only changes `turn_id`: any projection that ignores
`turn_id` maps through it unchanged. -/
theorem turnLoop_map {β : Type} (cfg : SBDConfig) (f : Rec → β)
    (hf : ∀ (r : Rec) (n : Nat), f { r with turn_id := n } = f r) :
    ∀ (rs : List Rec) (ps : Option String) (pts : Option Int) (cur : Nat),
      (turnLoop cfg ps pts cur rs).map f = rs.map f := by
  intro rs
  induction rs with
  | nil => intros; rfl
  | cons r rs ih =>
    intro ps pts cur
    simp only [turnLoop, List.map_cons]
    rw [hf, ih]

/-- Every record in the turn walk's output is a `turn_id`-update of an
input record. -/
theorem turnLoop_mem (cfg : SBDConfig) :
    ∀ (rs : List Rec) (ps : Option String) (pts : Option Int) (cur : Nat) (b : Rec),
      b ∈ turnLoop cfg ps pts cur rs →
      ∃ a ∈ rs, b = { a with turn_id := b.turn_id } := by
  intro rs
  induction rs with
  | nil => intro ps pts cur b hb; cases hb
  | cons r rs ih =>
    intro ps pts cur b hb
    simp only [turnLoop] at hb
    rcases List.mem_cons.mp hb with rfl | hb'
    · exact ⟨r, List.mem_cons_self r rs, rfl⟩
    · obtain ⟨a, ha, hba⟩ := ih _ _ _ b hb'
      exact ⟨a, List.mem_cons_of_mem r ha, hba⟩

/-- The turn walk from the state carried by a previous output record
produces a `turnStepRel` chain. -/
theorem turnLoop_chain (cfg : SBDConfig) :
    ∀ (rs : List Rec) (o : Rec),
      List.Chain (turnStepRel cfg) o (turnLoop cfg (some o.user) o.datetime o.turn_id rs) := by
  intro rs
  induction rs with
  | nil => intro o; exact List.Chain.nil
  | cons r rs ih =>
    intro o
    have hexp : turnLoop cfg (some o.user) o.datetime o.turn_id (r :: rs)
        = { r with turn_id :=
              if r.user = o.user && gapOk cfg r.datetime o.datetime
              then o.turn_id else o.turn_id + 1 }
          :: turnLoop cfg (some r.user) r.datetime
              (if r.user = o.user && gapOk cfg r.datetime o.datetime
               then o.turn_id else o.turn_id + 1) rs := rfl
    rw [hexp]
    exact List.Chain.cons rfl (ih _)

/-- `group_turns` output is a `turnStepRel` chain whose first record has
`turn_id = 0`. -/
theorem group_turns_chain (data : List Rec) (cfg : SBDConfig) :
    List.Chain' (turnStepRel cfg) (group_turns data cfg) ∧
    (group_turns data cfg).headI.turn_id = 0 := by
  unfold group_turns
  cases sortByKey sortKey (data.map fun r => { r with datetime := parseISO (replaceZ r.date) }) with
  | nil => exact ⟨trivial, rfl⟩
  | cons r rs =>
    have hexp : turnLoop cfg none none 0 (r :: rs)
        = { r with turn_id := 0 } :: turnLoop cfg (some r.user) r.datetime 0 rs := rfl
    rw [hexp]
    refine ⟨?_, rfl⟩
    show List.Chain (turnStepRel cfg) { r with turn_id := 0 }
      (turnLoop cfg (some r.user) r.datetime 0 rs)
    exact turnLoop_chain cfg rs { r with turn_id := 0 }

/-- The successor relation implies the invariant's adjacent-pair form. -/
theorem turnStepRel_adjacent (cfg : SBDConfig) (a b : Rec) (h : turnStepRel cfg a b) :
    turnAdjacentOK cfg a b := by
  unfold turnStepRel at h
  by_cases hc : (decide (b.user = a.user) && gapOk cfg b.datetime a.datetime) = true
  · rw [if_pos hc] at h
    rw [Bool.and_eq_true] at hc
    obtain ⟨hu, hg⟩ := hc
    have huser : b.user = a.user := of_decide_eq_true hu
    refine ⟨Nat.le_of_eq h.symm, fun _ => ⟨huser.symm, ?_⟩, fun hne => absurd h.symm hne⟩
    unfold gapOk at hg
    cases hb : b.datetime with
    | none => rw [hb] at hg; cases hg
    | some tb =>
      cases ha : a.datetime with
      | none => rw [ha, hb] at hg; cases hg
      | some ta =>
        rw [ha, hb] at hg
        exact ⟨ta, tb, rfl, rfl, of_decide_eq_true hg⟩
  · rw [if_neg hc] at h
    have hne : a.turn_id ≠ b.turn_id := by omega
    refine ⟨by omega, fun heq => absurd heq hne, fun _ => ?_⟩
    by_cases hu : decide (b.user = a.user) = true
    · right
      have hg : gapOk cfg b.datetime a.datetime = false := by
        cases hgb : gapOk cfg b.datetime a.datetime with
        | false => rfl
        | true => exact absurd (by rw [hu, hgb]; rfl) hc
      intro ta tb hta htb
      unfold gapOk at hg
      rw [htb, hta] at hg
      have := of_decide_eq_false hg
      omega
    · left
      have : ¬ b.user = a.user := fun he => hu (decide_eq_true he)
      exact fun he => this he.symm

/-- Claim C2: the output of `group_turns` satisfies the turn partition
invariant — the first record in time-sorted order has `turn_id` 0,
`turn_id` is non-decreasing along the sequence, adjacent same-turn pairs
share the user and have a defined gap of at most `t_merge_seconds`,
every boundary has a differing speaker or a (defined) gap exceeding the
window, and globally any two records sharing a `turn_id` have the same
user. -/
theorem sbd_C2 (data : List Rec) (cfg : SBDConfig) :
    (group_turns data cfg).headI.turn_id = 0 ∧
    List.Chain' (turnAdjacentOK cfg) (group_turns data cfg) ∧
    List.Pairwise sameTurnSameUser (group_turns data cfg) := by
  obtain ⟨hchain, hhead⟩ := group_turns_chain data cfg
  refine ⟨hhead, hchain.imp (fun {a b} h => turnStepRel_adjacent cfg a b h), ?_⟩
  have hR' : List.Chain' (fun a b : Rec => a.turn_id ≤ b.turn_id ∧ sameTurnSameUser a b)
      (group_turns data cfg) := by
    refine hchain.imp (fun {a b} h => ?_)
    have hadj := turnStepRel_adjacent cfg a b h
    exact ⟨hadj.1, fun heq => (hadj.2.1 heq).1⟩
  have htrans : ∀ a b c : Rec,
      (a.turn_id ≤ b.turn_id ∧ sameTurnSameUser a b) →
      (b.turn_id ≤ c.turn_id ∧ sameTurnSameUser b c) →
      (a.turn_id ≤ c.turn_id ∧ sameTurnSameUser a c) := by
    intro a b c hab hbc
    refine ⟨Nat.le_trans hab.1 hbc.1, fun heq => ?_⟩
    have hab' : a.turn_id = b.turn_id := by omega
    have hbc' : b.turn_id = c.turn_id := by omega
    exact (hab.2 hab').trans (hbc.2 hbc')
  haveI : IsTrans Rec (fun a b : Rec => a.turn_id ≤ b.turn_id ∧ sameTurnSameUser a b) :=
    ⟨htrans⟩
  have hpw := List.chain'_iff_pairwise.mp hR'
  exact hpw.imp (fun {a b} h => h.2)

/-- Counterexample to C5's parenthetical "so it sorts first among all
messages": a parseable date equal to `datetime.min` ties with the
sentinel key of the unparseable date, and the stable sort leaves the
unparseable-dated message (message `"b"`) in second position. -/
theorem sbd_C5_counterexample :
    parseISO (replaceZ "bad") = none ∧
    parseISO (replaceZ "0001-01-01 00:00:00") = some datetimeMin ∧
    (group_turns
        [{ date := "0001-01-01 00:00:00", user := "A", message := "a" },
         { date := "bad", user := "A", message := "b" }] defaultConfig).map Rec.message
      = ["a", "b"] ∧
    (group_turns
        [{ date := "0001-01-01 00:00:00", user := "A", message := "a" },
         { date := "bad", user := "A", message := "b" }] defaultConfig).map Rec.datetime
      = [some datetimeMin, none] :=
  ⟨rfl, rfl, rfl, rfl⟩

/-- Claim C5 as amended: a record whose date fails to parse is never
dropped (the output records are a permutation of the inputs), it carries
the earliest-possible sort key (`datetime.min`; every sort key is at
least that, and the output is key-sorted, so it can only be preceded by
records also holding the minimal key, input order deciding ties), and
any adjacent pair involving a missing timestamp is a turn boundary, so
such a record and its successor always start new turns. -/
theorem sbd_C5_amended (data : List Rec) (cfg : SBDConfig) :
    ((group_turns data cfg).map stripFields).Perm (data.map stripFields) ∧
    List.Pairwise (fun a b => sortKey a ≤ sortKey b) (group_turns data cfg) ∧
    (∀ r ∈ group_turns data cfg, datetimeMin ≤ sortKey r) ∧
    (∀ r ∈ group_turns data cfg, r.datetime = none → sortKey r = datetimeMin) ∧
    List.Chain' noneBoundary (group_turns data cfg) := by
  refine ⟨?_, ?_, ?_, ?_, ?_⟩
  · have hmap : (group_turns data cfg).map stripFields
        = (sortByKey sortKey
            (data.map fun r => { r with datetime := parseISO (replaceZ r.date) })).map
            stripFields :=
      turnLoop_map cfg stripFields (fun r n => rfl) _ none none 0
    rw [hmap]
    have hperm := (sortByKey_perm sortKey
      (data.map fun r => { r with datetime := parseISO (replaceZ r.date) })).map stripFields
    refine hperm.trans ?_
    rw [List.map_map]
    have : stripFields ∘ (fun r : Rec => { r with datetime := parseISO (replaceZ r.date) })
        = stripFields := funext fun r => rfl
    rw [this]
  · have hmap : (group_turns data cfg).map sortKey
        = (sortByKey sortKey
            (data.map fun r => { r with datetime := parseISO (replaceZ r.date) })).map
            sortKey :=
      turnLoop_map cfg sortKey (fun r n => rfl) _ none none 0
    have hs := sortByKey_pairwise sortKey
      (data.map fun r => { r with datetime := parseISO (replaceZ r.date) })
    have hs' : List.Pairwise (fun a b : Int => a ≤ b)
        ((group_turns data cfg).map sortKey) := by
      rw [hmap]
      exact List.pairwise_map.mpr hs
    exact List.pairwise_map.mp hs'
  · intro r hr
    obtain ⟨a, ha, hba⟩ := turnLoop_mem cfg _ none none 0 r hr
    have hkey : sortKey r = sortKey a := by rw [hba]; rfl
    have ha' : a ∈ data.map fun r => { r with datetime := parseISO (replaceZ r.date) } :=
      (sortByKey_perm sortKey _).mem_iff.mp ha
    obtain ⟨orig, _, horig⟩ := List.mem_map.mp ha'
    have hdt : a.datetime = parseISO (replaceZ orig.date) := by rw [← horig]
    rw [hkey]
    unfold sortKey
    rw [hdt]
    unfold parseISO
    cases parseISONat (replaceZ orig.date) with
    | none => exact le_refl _
    | some n =>
      show datetimeMin ≤ Int.ofNat n
      exact Int.ofNat_nonneg n
  · intro r _ hnone
    unfold sortKey
    rw [hnone]
    rfl
  · obtain ⟨hchain, _⟩ := group_turns_chain data cfg
    refine hchain.imp (fun {a b} h => ?_)
    intro hnone
    unfold turnStepRel at h
    have hg : gapOk cfg b.datetime a.datetime = false := by
      rcases hnone with ha | hb
      · unfold gapOk
        rw [ha]
        cases b.datetime <;> rfl
      · unfold gapOk
        rw [hb]
    rw [hg, Bool.and_false, if_neg (by simp)] at h
    omega

/-- Claim C1: whenever the merging pipeline `sbd_merge_messages` raises
(returns `.error`), `process_sbd_merge` catches it and returns the
original input list unchanged, never propagating the exception. -/
theorem sbd_C1 (data : List Rec) (cfg : SBDConfig) (e : String)
    (h : sbd_merge_messages data cfg = .error e) :
    process_sbd_merge data cfg = data := by
  unfold process_sbd_merge
  rw [h]

/-- Witness for C1 at a concrete failing input (a same-speaker turn
whose first message is empty, which raises `IndexError` inside the
merger): the input comes back unchanged. -/
theorem sbd_C1_witness :
    process_sbd_merge
      [{ date := "2024-01-01 00:00:00", user := "A", message := "" },
       { date := "2024-01-01 00:00:01", user := "A", message := "hi" }] defaultConfig
      = [{ date := "2024-01-01 00:00:00", user := "A", message := "" },
         { date := "2024-01-01 00:00:01", user := "A", message := "hi" }] :=
  sbd_C1
    [{ date := "2024-01-01 00:00:00", user := "A", message := "" },
     { date := "2024-01-01 00:00:01", user := "A", message := "hi" }]
    defaultConfig indexErrorMsg rfl

/-- Counterexample to C3: in a genuine merge (non-cut) step whose buffer
`"갔어."` ends with strong punctuation, the next text `",ㅋㅋ"` begins with
punctuation and the separator is the empty string, not the claimed
single space — the two `if`s of the source are independent, so the
punctuation-initial rule overrides the strong-punctuation rule. -/
theorem sbd_C3_counterexample :
    endsAny "갔어." [".", "?", "!", "…"] = true ∧
    merge_sep "갔어." ",ㅋㅋ" = "" ∧
    ("" : String) ≠ " " ∧
    boundary_score "갔어." ",ㅋㅋ" (some 1) false defaultConfig < defaultConfig.theta ∧
    merge_within_turn [(some 0, "갔어."), (some 1, ",ㅋㅋ")] defaultConfig
      = .ok ["갔어.,ㅋㅋ"] :=
  ⟨rfl, rfl, by decide, by decide, rfl⟩

/-- Claim C3 as amended: the separator is empty whenever the next text
begins with a punctuation character (this rule has priority); otherwise
it is a single space when the buffer ends with a
strong-punctuation-like character ('.', '?', '!', ellipsis, or the
apostrophe); otherwise it is comma-space. -/
theorem sbd_C3_amended (buf nt : String) :
    merge_sep buf nt =
      if startsAny nt [",", ".", "?", "!", "…"] then ""
      else if endsAny buf [".", "?", "!", "…"] || endsAny buf [apos.toString, apos.toString]
        then " "
        else ", " := by
  unfold merge_sep
  cases h1 : startsAny nt [",", ".", "?", "!", "…"] <;>
    cases h2 : endsAny buf [".", "?", "!", "…"] || endsAny buf [apos.toString, apos.toString] <;>
    simp [h1, h2]

/-- Counterexample to C4: for the turn
`[(t=0, "오늘 집에 갔어."), (t=3, "근데 비가 왔어")]` under the default config
the boundary score is 1, not 2 — the claim ignores the `-1` connective
penalty that `"근데 ..."` triggers — so 1 < theta, no cut happens, and one
sentence is emitted, not the claimed two. -/
theorem sbd_C4_counterexample :
    boundary_score "오늘 집에 갔어." "근데 비가 왔어" (some 3) false defaultConfig = 1 ∧
    (1 : Int) < defaultConfig.theta ∧
    merge_within_turn [(some 0, "오늘 집에 갔어."), (some 3, "근데 비가 왔어")] defaultConfig
      = .ok ["오늘 집에 갔어. 근데 비가 왔어"] ∧
    (["오늘 집에 갔어. 근데 비가 왔어"] : List String) ≠ ["오늘 집에 갔어.", "근데 비가 왔어"] :=
  ⟨rfl, by decide, rfl, by decide⟩

/-- Claim C4 as amended: on that turn the previous text's terminal `.`
contributes `+w_end_punct` but the next text's connective adverb `근데`
contributes `w_next_connective`, so the score is `2 + (-1) = 1 < theta`;
no cut occurs and exactly one sentence is emitted, the two fragments
joined by the single-space separator:
`"오늘 집에 갔어. 근데 비가 왔어"`. -/
theorem sbd_C4_amended :
    boundary_score "오늘 집에 갔어." "근데 비가 왔어" (some 3) false defaultConfig
      = defaultConfig.w_end_punct + defaultConfig.w_next_connective ∧
    boundary_score "오늘 집에 갔어." "근데 비가 왔어" (some 3) false defaultConfig
      < defaultConfig.theta ∧
    merge_within_turn [(some 0, "오늘 집에 갔어."), (some 3, "근데 비가 왔어")] defaultConfig
      = .ok ["오늘 집에 갔어. 근데 비가 왔어"] :=
  ⟨rfl, by decide, rfl⟩

/-- Claim C6: `is_backchannel` is true iff the outer-trimmed text has at
most 6 characters and the residual after removing
punctuation/symbols/whitespace matches the fixed whitelist; any text
longer than 6 characters after trimming is never a backchannel. -/
theorem sbd_C6 (t : String) :
    is_backchannel t
      = (decide ((pyStrip t).length ≤ 6)
          && backchannelFull (removePunctSymSpace (pyStrip t)))
    ∧ (6 < (pyStrip t).length → is_backchannel t = false) := by
  have key : is_backchannel t
      = (decide ((pyStrip t).length ≤ 6)
          && backchannelFull (removePunctSymSpace (pyStrip t))) := by
    unfold is_backchannel
    by_cases h : t = ""
    · subst h; decide
    · simp only [if_neg h]
      by_cases h6 : (pyStrip t).length > 6
      · rw [if_pos h6]
        have hd : decide ((pyStrip t).length ≤ 6) = false := by
          simp only [decide_eq_false_iff_not]; omega
        rw [hd, Bool.false_and]
      · rw [if_neg h6]
        have hd : decide ((pyStrip t).length ≤ 6) = true := by
          simp only [decide_eq_true_eq]; omega
        rw [hd, Bool.true_and]
  refine ⟨key, fun h6 => ?_⟩
  rw [key]
  have hd : decide ((pyStrip t).length ≤ 6) = false := by
    simp only [decide_eq_false_iff_not]; omega
  rw [hd, Bool.false_and]

/-- Witness for C6 at concrete inputs: a 7-character text is rejected,
and the equation evaluates on a short backchannel. -/
theorem sbd_C6_witness :
    is_backchannel "안녕하세요저는요" = false ∧
    is_backchannel "ㅇㅋ!"
      = (decide ((pyStrip "ㅇㅋ!").length ≤ 6)
          && backchannelFull (removePunctSymSpace (pyStrip "ㅇㅋ!"))) :=
  ⟨(sbd_C6 "안녕하세요저는요").2 (by decide), (sbd_C6 "ㅇㅋ!").1⟩

/-- Claim C7: for the same-speaker turn
`[(0s, "안녕"), (5s, "밥 먹었어"), (8s, "?")]` under the default config both
boundary scores are 0 < theta, and one merged sentence
`"안녕, 밥 먹었어?"` is emitted (comma-space join, then empty-separator
join for the punctuation-initial `"?"`). -/
theorem sbd_C7 :
    boundary_score "안녕" "밥 먹었어" (some 5) false defaultConfig = 0 ∧
    boundary_score "안녕, 밥 먹었어" "?" (some 3) false defaultConfig = 0 ∧
    (0 : Int) < defaultConfig.theta ∧
    merge_within_turn [(some 0, "안녕"), (some 5, "밥 먹었어"), (some 8, "?")] defaultConfig
      = .ok ["안녕, 밥 먹었어?"] :=
  ⟨rfl, rfl, by decide, rfl⟩

/-- Claim C8: `process_sbd_merge` on the empty list returns the empty
list for every config (the pipeline's `max()` raises on the empty
sequence and the orchestrator falls back to the empty input). -/
theorem sbd_C8 (cfg : SBDConfig) : process_sbd_merge [] cfg = [] := rfl

/-- Claim C9: a turn of two or more messages whose first text strips to
the empty string makes `merge_within_turn` raise `IndexError` at
`buf.split()[-1]`, and any whole input containing such a turn makes
`process_sbd_merge` fall back to the unchanged input. -/
theorem sbd_C9 :
    (∀ (cfg : SBDConfig) (m0 m1 : Option Int × String)
        (rest : List (Option Int × String)),
        pyStrip m0.2 = "" →
        merge_within_turn (m0 :: m1 :: rest) cfg = .error indexErrorMsg) ∧
    (∀ (data : List Rec) (cfg : SBDConfig) (tid : Nat),
        2 ≤ (turnMessagesOf data cfg tid).length →
        pyStrip (turnMessagesOf data cfg tid).headI.message = "" →
        process_sbd_merge data cfg = data) := by
  constructor
  · exact fun cfg m0 m1 rest h => merge_within_turn_empty_first cfg m0 m1 rest h
  · intro data cfg tid hlen hstrip
    obtain ⟨r0, r1, rs, htm⟩ : ∃ r0 r1 rs, turnMessagesOf data cfg tid = r0 :: r1 :: rs := by
      cases h0 : turnMessagesOf data cfg tid with
      | nil => rw [h0] at hlen; simp at hlen
      | cons r0 l =>
        cases h1 : l with
        | nil => rw [h0, h1] at hlen; simp at hlen
        | cons r1 rs => exact ⟨r0, r1, rs, rfl⟩
    have htr : turnRecords (group_turns (tagBackchannel data) cfg) tid = r0 :: r1 :: rs := htm
    have hr0 : pyStrip r0.message = "" := by
      rw [htm] at hstrip; exact hstrip
    have hmerge : merge_within_turn
        ((r0 :: r1 :: rs).map fun r => (r.datetime, r.message)) cfg
        = .error indexErrorMsg := by
      rw [List.map_cons, List.map_cons]
      exact merge_within_turn_empty_first cfg (r0.datetime, r0.message)
        (r1.datetime, r1.message) (rs.map fun r => (r.datetime, r.message)) hr0
    have hrows : mergedRowsFor cfg (group_turns (tagBackchannel data) cfg) tid
        = .error indexErrorMsg := by
      unfold mergedRowsFor
      simp only [htr, hmerge]
    have hr0mem : r0 ∈ group_turns (tagBackchannel data) cfg := by
      have hmem : r0 ∈ turnRecords (group_turns (tagBackchannel data) cfg) tid := by
        rw [htr]; exact List.mem_cons_self r0 (r1 :: rs)
      exact List.mem_of_mem_filter hmem
    have hr0tid : r0.turn_id = tid := by
      have hmem : r0 ∈ turnRecords (group_turns (tagBackchannel data) cfg) tid := by
        rw [htr]; exact List.mem_cons_self r0 (r1 :: rs)
      have := List.of_mem_filter hmem
      exact of_decide_eq_true this
    obtain ⟨mx, hmx⟩ : ∃ mx, maxTurnId (group_turns (tagBackchannel data) cfg) = some mx := by
      cases hg : group_turns (tagBackchannel data) cfg with
      | nil => rw [hg] at hr0mem; cases hr0mem
      | cons g gs => exact ⟨_, rfl⟩
    have htid_le : tid ≤ mx := by
      rw [← hr0tid]
      exact maxTurnId_le _ mx hmx r0 hr0mem
    have herr : ∃ e, sbd_merge_messages data cfg = Except.error e := by
      unfold sbd_merge_messages
      simp only [hmx]
      exact foldlM_appendRows_error cfg (group_turns (tagBackchannel data) cfg)
        (List.range (mx + 1)) []
        ⟨tid, List.mem_range.mpr (Nat.lt_succ_of_le htid_le), indexErrorMsg, hrows⟩
    obtain ⟨e, he⟩ := herr
    unfold process_sbd_merge
    rw [he]

/-- Claim C10: `process_sbd_merge` never mutates its input.  In the
heap model, every dict allocated before the call reads back unchanged
after it, whether the pipeline succeeds or falls back — the pipeline
writes `is_backchannel`, `datetime` and `turn_id` only into freshly
allocated copies — and on a pipeline error the returned list is the
original input address list itself. -/
theorem sbd_C10 (cfg : SBDConfig) (h : Heap) (addrs : List Nat) :
    (∀ a, a < h.length →
      heapRead (process_sbd_mergeH cfg h addrs).1 a = heapRead h a) ∧
    (∀ e, (sbdH cfg h addrs).2 = .error e →
      (process_sbd_mergeH cfg h addrs).2 = addrs) := by
  constructor
  · intro a ha
    show heapRead (sbdH cfg h addrs).1 a = heapRead h a
    exact sbdH_frame cfg h addrs a ha
  · intro e he
    show (match (sbdH cfg h addrs).2 with
          | .ok rows => rows
          | .error _ => addrs) = addrs
    rw [he]

/-- Witness for C9 at a concrete input: a same-speaker turn whose first
message is empty raises in the merger, and the whole pipeline passes the
two original records through unchanged. -/
theorem sbd_C9_witness :
    merge_within_turn [(some 0, " "), (some 1, "hi")] defaultConfig
      = .error indexErrorMsg ∧
    process_sbd_merge
      [{ date := "2024-02-02 10:00:00", user := "B", message := "  " },
       { date := "2024-02-02 10:00:05", user := "B", message := "그래" }] defaultConfig
      = [{ date := "2024-02-02 10:00:00", user := "B", message := "  " },
         { date := "2024-02-02 10:00:05", user := "B", message := "그래" }] :=
  ⟨sbd_C9.1 defaultConfig (some 0, " ") (some 1, "hi") [] (by decide),
   sbd_C9.2
     [{ date := "2024-02-02 10:00:00", user := "B", message := "  " },
      { date := "2024-02-02 10:00:05", user := "B", message := "그래" }]
     defaultConfig 0 (by decide) (by decide)⟩

end SBD
